import Mathlib

/-!
Shallow embedding of `src/force-git-resolution.py`.

The script mutates only the filesystem (deleting lock files) and spawns
external commands.  We model:
  * the filesystem as a `List String` of file paths (relative, slash-separated,
    exactly as the Python `str(path)` renders them);
  * `Path.unlink` / `os.remove` through an oracle
    `unlinkErr : String → Option String`: `none` means the syscall succeeds,
    `some e` means it raises an OS-level exception with message `e`;
  * `subprocess.run` through an oracle `runCmd : List String → CmdOutcome`
    giving, for each argv, either a completed process (return code, stdout,
    stderr), a `subprocess.TimeoutExpired`, or another exception;
  * observable behaviour as a trace of events: a `print` of a line, an
    attempted `unlink` of a path, and an `exec` of an argv with the timeout
    passed to `subprocess.run`.
-/

/-- Outcome of `subprocess.run(cmd, capture_output=True, text=True, timeout=30)`:
either the process completed (with return code, stdout, stderr), or
`subprocess.TimeoutExpired` was raised, or some other exception was raised. -/
inductive CmdOutcome where
  | completed (returncode : Int) (stdout : String) (stderr : String)
  | timeout
  | exc (msg : String)
deriving DecidableEq, Repr

/-- One observable step of the script: a printed line, an attempted deletion
(`Path.unlink` / `os.remove` syscall issued on a path), or an external command
spawned with its timeout argument. -/
inductive Event where
  | print (line : String)
  | unlink (path : String)
  | exec (cmd : List String) (timeoutArg : Nat)
deriving DecidableEq, Repr

/-- Python `' '.join(cmd)`. -/
def joinCmd (cmd : List String) : String := String.intercalate " " cmd

/-- A path is produced by `Path('.git').rglob('*.lock')` iff it lies strictly
under the `.git` directory and its final component matches `*.lock`, i.e. the
path ends with `.lock` (the pattern has no slash, so matching the last
component is the same as a suffix test on the whole path). -/
def isGitLock (p : String) : Bool :=
  ".git/".data.isPrefixOf p.data && ".lock".data.isSuffixOf p.data

/-- `lock_files = list(git_dir.rglob('*.lock'))`: the files of the filesystem
under `.git` whose name matches `*.lock`, in filesystem order. -/
def rglobLocks (fs : List String) : List String := fs.filter (fun p => isGitLock p)

/-- Deleting a path from the modelled filesystem. -/
def fsDelete (fs : List String) (p : String) : List String :=
  fs.filter (fun q => q ≠ p)

/-- First cleanup loop (lines 18–23): for each path of `todo`, try
`lock_file.unlink()`; on success print `Removed lock file: …`, on an exception
print `Could not remove …` and continue with the next path. -/
def unlinkLoop (unlinkErr : String → Option String) :
    List String → List String → List String × List Event
  | fs, [] => (fs, [])
  | fs, p :: rest =>
    match unlinkErr p with
    | none =>
      let r := unlinkLoop unlinkErr (fsDelete fs p) rest
      (r.1, Event.unlink p :: Event.print ("Removed lock file: " ++ p) :: r.2)
    | some e =>
      let r := unlinkLoop unlinkErr fs rest
      (r.1, Event.unlink p :: Event.print ("Could not remove " ++ p ++ ": " ++ e) :: r.2)

/-- The four well-known lock paths of lines 26–31. -/
def specific_locks : List String :=
  [".git/index.lock", ".git/HEAD.lock", ".git/config.lock", ".git/refs/heads/main.lock"]

/-- Second cleanup loop (lines 33–39): for each path of `todo`, if
`os.path.exists(lock_path)` then try `os.remove(lock_path)`; on success print
`Removed: …`, on an exception print `Could not remove …` and continue. -/
def removeLoop (unlinkErr : String → Option String) :
    List String → List String → List String × List Event
  | fs, [] => (fs, [])
  | fs, p :: rest =>
    if p ∈ fs then
      match unlinkErr p with
      | none =>
        let r := removeLoop unlinkErr (fsDelete fs p) rest
        (r.1, Event.unlink p :: Event.print ("Removed: " ++ p) :: r.2)
      | some e =>
        let r := removeLoop unlinkErr fs rest
        (r.1, Event.unlink p :: Event.print ("Could not remove " ++ p ++ ": " ++ e) :: r.2)
    else
      removeLoop unlinkErr fs rest

/-- The fixed command list of lines 42–48. -/
def commands : List (List String) :=
  [["git", "reset", "--hard", "HEAD"],
   ["git", "clean", "-fd"],
   ["git", "fetch", "--all"],
   ["git", "reset", "--hard", "origin/main"],
   ["git", "status"]]

/-- One iteration of the command loop (lines 50–62): spawn the command with a
30-second timeout; on return code 0 print `✓ …` (and, if `cmd[-1] == 'status'`,
also print the captured stdout); on a nonzero return code print `✗ …: stderr`;
on `TimeoutExpired` print `Timeout: …`; on any other exception print
`Error running …`. -/
def cmdStep (runCmd : List String → CmdOutcome) (cmd : List String) : List Event :=
  match runCmd cmd with
  | CmdOutcome.completed rc out err =>
    if rc = 0 then
      if cmd.getLast? = some "status" then
        [Event.exec cmd 30, Event.print ("✓ " ++ joinCmd cmd), Event.print out]
      else
        [Event.exec cmd 30, Event.print ("✓ " ++ joinCmd cmd)]
    else
      [Event.exec cmd 30, Event.print ("✗ " ++ joinCmd cmd ++ ": " ++ err)]
  | CmdOutcome.timeout => [Event.exec cmd 30, Event.print ("Timeout: " ++ joinCmd cmd)]
  | CmdOutcome.exc e => [Event.exec cmd 30, Event.print ("Error running " ++ joinCmd cmd ++ ": " ++ e)]

/-- The command loop over the whole command list. -/
def cmdLoop (runCmd : List String → CmdOutcome) : List (List String) → List Event
  | [] => []
  | cmd :: rest => cmdStep runCmd cmd ++ cmdLoop runCmd rest

/-- Result of one run: the final modelled filesystem and the event trace. -/
structure RunResult where
  fs : List String
  trace : List Event
deriving DecidableEq, Repr

/-- The filesystem left by the lock-cleanup phase alone (lines 14–39): the
recursive `*.lock` sweep followed by the pass over the four specific paths. -/
def cleanupFs (unlinkErr : String → Option String) (fs : List String) : List String :=
  (removeLoop unlinkErr (unlinkLoop unlinkErr fs (rglobLocks fs)).1 specific_locks).1

/-- `force_git_resolution()` (lines 9–65): header print, the two cleanup
loops, the command loop, and the footer prints.  The commands only run as
external processes, so the modelled filesystem is not changed by them. -/
def force_git_resolution (fs : List String) (unlinkErr : String → Option String)
    (runCmd : List String → CmdOutcome) : RunResult :=
  let r1 := unlinkLoop unlinkErr fs (rglobLocks fs)
  let r2 := removeLoop unlinkErr r1.1 specific_locks
  { fs := r2.1
    trace :=
      Event.print "Force-resolving Git lock and conflicts..." ::
        (r1.2 ++ r2.2 ++ cmdLoop runCmd commands ++
          [Event.print "\nGit resolution attempt complete.",
           Event.print "Try running: git status"]) }

/-- The `if __name__ == "__main__"` entry (lines 67–68): run the routine;
every exception inside is caught at its statement, the script never calls
`sys.exit`, so the interpreter's exit status together with the run's result.
`Except` records a propagated exception; none is ever produced. -/
def scriptMain (fs : List String) (unlinkErr : String → Option String)
    (runCmd : List String → CmdOutcome) : Except String (Nat × RunResult) :=
  Except.ok (0, force_git_resolution fs unlinkErr runCmd)

/-- Commands spawned along a trace, in order. -/
def execCmds (tr : List Event) : List (List String) :=
  tr.filterMap (fun e => match e with | Event.exec c _ => some c | _ => none)

/-- Commands spawned along a trace together with the timeout each was given. -/
def execCalls (tr : List Event) : List (List String × Nat) :=
  tr.filterMap (fun e => match e with | Event.exec c t => some (c, t) | _ => none)

/-- Is the event a spawned command? -/
def isExec : Event → Bool
  | Event.exec _ _ => true
  | _ => false

/-- Is the event a printed `Removed` line (either `Removed lock file: …` or
`Removed: …`)? -/
def isRemovedPrint : Event → Bool
  | Event.print s => "Removed".data.isPrefixOf s.data
  | _ => false

example :
    (force_git_resolution [".git/index.lock", "src/app.py"] (fun _ => none)
        (fun _ => CmdOutcome.timeout)).fs = ["src/app.py"] := by decide

/-! ### Lemmas about the first cleanup loop -/

theorem mem_fsDelete {fs : List String} {p q : String} :
    q ∈ fsDelete fs p ↔ q ∈ fs ∧ q ≠ p := by
  simp [fsDelete]

theorem unlinkLoop_fs_subset (u : String → Option String) (todo : List String) :
    ∀ fs p, p ∈ (unlinkLoop u fs todo).1 → p ∈ fs := by
  induction todo with
  | nil => intro fs p h; simpa [unlinkLoop] using h
  | cons q rest ih =>
    intro fs p h
    rw [unlinkLoop] at h
    cases hq : u q with
    | none =>
      rw [hq] at h
      have := ih _ _ h
      exact (mem_fsDelete.mp this).1
    | some e =>
      rw [hq] at h
      exact ih _ _ h

theorem unlinkLoop_removes (u : String → Option String) (todo : List String) :
    ∀ fs p, p ∈ todo → u p = none → p ∉ (unlinkLoop u fs todo).1 := by
  induction todo with
  | nil => intro fs p h; simp at h
  | cons q rest ih =>
    intro fs p hmem hp
    rw [unlinkLoop]
    cases hq : u q with
    | none =>
      rcases List.mem_cons.mp hmem with rfl | hrest
      · intro hcon
        have := unlinkLoop_fs_subset u rest _ _ hcon
        exact (mem_fsDelete.mp this).2 rfl
      · exact ih _ _ hrest hp
    | some e =>
      rcases List.mem_cons.mp hmem with rfl | hrest
      · rw [hp] at hq; cases hq
      · exact ih _ _ hrest hp

theorem unlinkLoop_keeps_failed (u : String → Option String) (todo : List String) :
    ∀ fs p e, u p = some e → p ∈ fs → p ∈ (unlinkLoop u fs todo).1 := by
  induction todo with
  | nil => intro fs p e _ h; simpa [unlinkLoop] using h
  | cons q rest ih =>
    intro fs p e hp hfs
    rw [unlinkLoop]
    cases hq : u q with
    | none =>
      have hne : p ≠ q := fun h => by rw [h, hq] at hp; cases hp
      exact ih _ _ _ hp (mem_fsDelete.mpr ⟨hfs, hne⟩)
    | some e' => exact ih _ _ _ hp hfs

theorem unlinkLoop_keeps_other (u : String → Option String) (todo : List String) :
    ∀ fs p, p ∉ todo → p ∈ fs → p ∈ (unlinkLoop u fs todo).1 := by
  induction todo with
  | nil => intro fs p _ h; simpa [unlinkLoop] using h
  | cons q rest ih =>
    intro fs p hnot hfs
    have hne : p ≠ q := fun h => hnot (h ▸ List.mem_cons_self q rest)
    have hnrest : p ∉ rest := fun h => hnot (List.mem_cons_of_mem q h)
    rw [unlinkLoop]
    cases hq : u q with
    | none => exact ih _ _ hnrest (mem_fsDelete.mpr ⟨hfs, hne⟩)
    | some e => exact ih _ _ hnrest hfs

theorem unlinkLoop_logs_failure (u : String → Option String) (todo : List String) :
    ∀ fs p e, p ∈ todo → u p = some e →
      Event.print ("Could not remove " ++ p ++ ": " ++ e) ∈ (unlinkLoop u fs todo).2 := by
  induction todo with
  | nil => intro fs p e h; simp at h
  | cons q rest ih =>
    intro fs p e hmem hp
    rw [unlinkLoop]
    cases hq : u q with
    | none =>
      rcases List.mem_cons.mp hmem with rfl | hrest
      · rw [hp] at hq; cases hq
      · simp only [List.mem_cons]
        exact Or.inr (Or.inr (ih _ _ _ hrest hp))
    | some e' =>
      rcases List.mem_cons.mp hmem with rfl | hrest
      · rw [hp] at hq; injection hq with h; subst h
        simp
      · simp only [List.mem_cons]
        exact Or.inr (Or.inr (ih _ _ _ hrest hp))

theorem unlinkLoop_attempts (u : String → Option String) (todo : List String) :
    ∀ fs p, p ∈ todo → Event.unlink p ∈ (unlinkLoop u fs todo).2 := by
  induction todo with
  | nil => intro fs p h; simp at h
  | cons q rest ih =>
    intro fs p hmem
    rw [unlinkLoop]
    cases hq : u q with
    | none =>
      rcases List.mem_cons.mp hmem with rfl | hrest
      · simp
      · simp only [List.mem_cons]
        exact Or.inr (Or.inr (ih _ _ hrest))
    | some e =>
      rcases List.mem_cons.mp hmem with rfl | hrest
      · simp
      · simp only [List.mem_cons]
        exact Or.inr (Or.inr (ih _ _ hrest))

theorem unlinkLoop_unlink_mem (u : String → Option String) (todo : List String) :
    ∀ fs q, Event.unlink q ∈ (unlinkLoop u fs todo).2 → q ∈ todo := by
  induction todo with
  | nil => intro fs q h; simp [unlinkLoop] at h
  | cons p rest ih =>
    intro fs q h
    rw [unlinkLoop] at h
    cases hp : u p with
    | none =>
      rw [hp] at h
      simp only [List.mem_cons] at h
      rcases h with h | h | h
      · injection h with h; exact h ▸ List.mem_cons_self p rest
      · cases h
      · exact List.mem_cons_of_mem p (ih _ _ h)
    | some e =>
      rw [hp] at h
      simp only [List.mem_cons] at h
      rcases h with h | h | h
      · injection h with h; exact h ▸ List.mem_cons_self p rest
      · cases h
      · exact List.mem_cons_of_mem p (ih _ _ h)

theorem unlinkLoop_no_exec (u : String → Option String) (todo : List String) :
    ∀ fs, execCalls (unlinkLoop u fs todo).2 = [] := by
  induction todo with
  | nil => intro fs; simp [unlinkLoop, execCalls]
  | cons p rest ih =>
    intro fs
    rw [unlinkLoop]
    cases hp : u p with
    | none => simpa [execCalls] using ih (fsDelete fs p)
    | some e => simpa [execCalls] using ih fs

/-! ### Lemmas about the second cleanup loop -/

theorem removeLoop_fs_subset (u : String → Option String) (todo : List String) :
    ∀ fs p, p ∈ (removeLoop u fs todo).1 → p ∈ fs := by
  induction todo with
  | nil => intro fs p h; simpa [removeLoop] using h
  | cons q rest ih =>
    intro fs p h
    rw [removeLoop] at h
    by_cases hin : q ∈ fs
    · rw [if_pos hin] at h
      cases hq : u q with
      | none =>
        rw [hq] at h
        exact (mem_fsDelete.mp (ih _ _ h)).1
      | some e =>
        rw [hq] at h
        exact ih _ _ h
    · rw [if_neg hin] at h
      exact ih _ _ h

theorem removeLoop_removes (u : String → Option String) (todo : List String) :
    ∀ fs p, p ∈ todo → u p = none → p ∉ (removeLoop u fs todo).1 := by
  induction todo with
  | nil => intro fs p h; simp at h
  | cons q rest ih =>
    intro fs p hmem hp
    rw [removeLoop]
    by_cases hin : q ∈ fs
    · rw [if_pos hin]
      cases hq : u q with
      | none =>
        rcases List.mem_cons.mp hmem with rfl | hrest
        · intro hcon
          exact (mem_fsDelete.mp (removeLoop_fs_subset u rest _ _ hcon)).2 rfl
        · exact ih _ _ hrest hp
      | some e =>
        rcases List.mem_cons.mp hmem with rfl | hrest
        · rw [hp] at hq; cases hq
        · exact ih _ _ hrest hp
    · rw [if_neg hin]
      rcases List.mem_cons.mp hmem with rfl | hrest
      · intro hcon; exact hin (removeLoop_fs_subset u rest _ _ hcon)
      · exact ih _ _ hrest hp

theorem removeLoop_keeps_failed (u : String → Option String) (todo : List String) :
    ∀ fs p e, u p = some e → p ∈ fs → p ∈ (removeLoop u fs todo).1 := by
  induction todo with
  | nil => intro fs p e _ h; simpa [removeLoop] using h
  | cons q rest ih =>
    intro fs p e hp hfs
    rw [removeLoop]
    by_cases hin : q ∈ fs
    · rw [if_pos hin]
      cases hq : u q with
      | none =>
        have hne : p ≠ q := fun h => by rw [h, hq] at hp; cases hp
        exact ih _ _ _ hp (mem_fsDelete.mpr ⟨hfs, hne⟩)
      | some e' => exact ih _ _ _ hp hfs
    · rw [if_neg hin]
      exact ih _ _ _ hp hfs

theorem removeLoop_keeps_other (u : String → Option String) (todo : List String) :
    ∀ fs p, p ∉ todo → p ∈ fs → p ∈ (removeLoop u fs todo).1 := by
  induction todo with
  | nil => intro fs p _ h; simpa [removeLoop] using h
  | cons q rest ih =>
    intro fs p hnot hfs
    have hne : p ≠ q := fun h => hnot (h ▸ List.mem_cons_self q rest)
    have hnrest : p ∉ rest := fun h => hnot (List.mem_cons_of_mem q h)
    rw [removeLoop]
    by_cases hin : q ∈ fs
    · rw [if_pos hin]
      cases hq : u q with
      | none => exact ih _ _ hnrest (mem_fsDelete.mpr ⟨hfs, hne⟩)
      | some e => exact ih _ _ hnrest hfs
    · rw [if_neg hin]
      exact ih _ _ hnrest hfs

theorem removeLoop_logs_failure (u : String → Option String) (todo : List String) :
    ∀ fs p e, p ∈ todo → p ∈ fs → u p = some e →
      Event.print ("Could not remove " ++ p ++ ": " ++ e) ∈ (removeLoop u fs todo).2 := by
  induction todo with
  | nil => intro fs p e h; simp at h
  | cons q rest ih =>
    intro fs p e hmem hfs hp
    rw [removeLoop]
    by_cases hin : q ∈ fs
    · rw [if_pos hin]
      cases hq : u q with
      | none =>
        rcases List.mem_cons.mp hmem with rfl | hrest
        · rw [hp] at hq; cases hq
        · have hne : p ≠ q := fun h => by rw [h, hq] at hp; cases hp
          simp only [List.mem_cons]
          exact Or.inr (Or.inr (ih _ _ _ hrest (mem_fsDelete.mpr ⟨hfs, hne⟩) hp))
      | some e' =>
        rcases List.mem_cons.mp hmem with rfl | hrest
        · rw [hp] at hq; injection hq with h; subst h
          simp
        · simp only [List.mem_cons]
          exact Or.inr (Or.inr (ih _ _ _ hrest hfs hp))
    · rw [if_neg hin]
      rcases List.mem_cons.mp hmem with rfl | hrest
      · exact absurd hfs hin
      · exact ih _ _ _ hrest hfs hp

theorem removeLoop_unlink_mem (u : String → Option String) (todo : List String) :
    ∀ fs q, Event.unlink q ∈ (removeLoop u fs todo).2 → q ∈ todo := by
  induction todo with
  | nil => intro fs q h; simp [removeLoop] at h
  | cons p rest ih =>
    intro fs q h
    rw [removeLoop] at h
    by_cases hin : p ∈ fs
    · rw [if_pos hin] at h
      cases hp : u p with
      | none =>
        rw [hp] at h
        simp only [List.mem_cons] at h
        rcases h with h | h | h
        · injection h with h; exact h ▸ List.mem_cons_self p rest
        · cases h
        · exact List.mem_cons_of_mem p (ih _ _ h)
      | some e =>
        rw [hp] at h
        simp only [List.mem_cons] at h
        rcases h with h | h | h
        · injection h with h; exact h ▸ List.mem_cons_self p rest
        · cases h
        · exact List.mem_cons_of_mem p (ih _ _ h)
    · rw [if_neg hin] at h
      exact List.mem_cons_of_mem p (ih _ _ h)

theorem removeLoop_no_exec (u : String → Option String) (todo : List String) :
    ∀ fs, execCalls (removeLoop u fs todo).2 = [] := by
  induction todo with
  | nil => intro fs; simp [removeLoop, execCalls]
  | cons p rest ih =>
    intro fs
    rw [removeLoop]
    by_cases hin : p ∈ fs
    · rw [if_pos hin]
      cases hp : u p with
      | none => simpa [execCalls] using ih (fsDelete fs p)
      | some e => simpa [execCalls] using ih fs
    · rw [if_neg hin]
      exact ih fs

theorem removeLoop_absent (u : String → Option String) (todo : List String) :
    ∀ fs, (∀ p, p ∈ todo → p ∉ fs) → removeLoop u fs todo = (fs, []) := by
  induction todo with
  | nil => intro fs _; simp [removeLoop]
  | cons q rest ih =>
    intro fs h
    rw [removeLoop, if_neg (h q (List.mem_cons_self q rest))]
    exact ih fs (fun p hp => h p (List.mem_cons_of_mem q hp))

/-! ### Lemmas about the command loop -/

theorem execCalls_append (a b : List Event) :
    execCalls (a ++ b) = execCalls a ++ execCalls b := by
  simp [execCalls, List.filterMap_append]

theorem execCmds_eq_map (tr : List Event) : execCmds tr = (execCalls tr).map Prod.fst := by
  induction tr with
  | nil => rfl
  | cons e t ih =>
    cases e with
    | print s => simpa [execCmds, execCalls, List.filterMap_cons] using ih
    | unlink p => simpa [execCmds, execCalls, List.filterMap_cons] using ih
    | exec c tn => simpa [execCmds, execCalls, List.filterMap_cons] using ih

theorem countP_isExec_eq (tr : List Event) : tr.countP isExec = (execCalls tr).length := by
  induction tr with
  | nil => rfl
  | cons e t ih =>
    cases e with
    | print s => simpa [execCalls, List.filterMap_cons, List.countP_cons, isExec] using ih
    | unlink p => simpa [execCalls, List.filterMap_cons, List.countP_cons, isExec] using ih
    | exec c tn => simpa [execCalls, List.filterMap_cons, List.countP_cons, isExec] using ih

theorem cmdStep_execCalls (runCmd : List String → CmdOutcome) (cmd : List String) :
    execCalls (cmdStep runCmd cmd) = [(cmd, 30)] := by
  unfold cmdStep
  cases runCmd cmd with
  | completed rc out err =>
    by_cases hr : rc = 0 <;> by_cases hl : cmd.getLast? = some "status" <;>
      simp [hr, hl, execCalls]
  | timeout => rfl
  | exc e => rfl

theorem cmdLoop_execCalls (runCmd : List String → CmdOutcome) (cmds : List (List String)) :
    execCalls (cmdLoop runCmd cmds) = cmds.map (fun c => (c, 30)) := by
  induction cmds with
  | nil => rfl
  | cons c rest ih =>
    rw [cmdLoop, execCalls_append, cmdStep_execCalls, ih]
    rfl

theorem mem_cmdLoop (runCmd : List String → CmdOutcome) (cmds : List (List String))
    (cmd : List String) (h : cmd ∈ cmds) (ev : Event) (hev : ev ∈ cmdStep runCmd cmd) :
    ev ∈ cmdLoop runCmd cmds := by
  induction cmds with
  | nil => simp at h
  | cons c rest ih =>
    rw [cmdLoop]
    rcases List.mem_cons.mp h with rfl | hr
    · exact List.mem_append_left _ hev
    · exact List.mem_append_right _ (ih hr)

theorem cmdStep_timeout (runCmd : List String → CmdOutcome) (cmd : List String)
    (h : runCmd cmd = CmdOutcome.timeout) :
    Event.print ("Timeout: " ++ joinCmd cmd) ∈ cmdStep runCmd cmd := by
  unfold cmdStep
  rw [h]
  simp

theorem cmdStep_status_ok (runCmd : List String → CmdOutcome) (cmd : List String)
    (out err : String) (h : runCmd cmd = CmdOutcome.completed 0 out err)
    (hl : cmd.getLast? = some "status") :
    Event.print ("✓ " ++ joinCmd cmd) ∈ cmdStep runCmd cmd ∧
      Event.print out ∈ cmdStep runCmd cmd := by
  unfold cmdStep
  rw [h]
  simp [hl]

/-! ### Decomposition of a whole run -/

theorem force_fs_eq (fs : List String) (u : String → Option String)
    (rc : List String → CmdOutcome) :
    (force_git_resolution fs u rc).fs = cleanupFs u fs := rfl

theorem force_trace_eq (fs : List String) (u : String → Option String)
    (rc : List String → CmdOutcome) :
    (force_git_resolution fs u rc).trace =
      Event.print "Force-resolving Git lock and conflicts..." ::
        ((unlinkLoop u fs (rglobLocks fs)).2 ++
          (removeLoop u (unlinkLoop u fs (rglobLocks fs)).1 specific_locks).2 ++
          cmdLoop rc commands ++
          [Event.print "\nGit resolution attempt complete.",
           Event.print "Try running: git status"]) := rfl

/-! ### First characters, used to tell the report lines apart -/

def firstCh (s : String) : Option Char := s.data.head?

theorem firstCh_append (a b : String) (h : a.data ≠ []) : firstCh (a ++ b) = firstCh a := by
  have hs : a.data.head?.isSome := by
    cases ha : a.data with
    | nil => exact absurd ha h
    | cons x xs => simp
  obtain ⟨x, hx⟩ := Option.isSome_iff_exists.mp hs
  simp [firstCh, String.data_append, List.head?_append, hx]

theorem data_ne_nil_left (a b : String) (h : a.data ≠ []) : (a ++ b).data ≠ [] := by
  rw [String.data_append]
  intro hc
  exact h (List.append_eq_nil.mp hc).1

theorem append_ne_of_firstCh {x y : String} (b c : String) (hx : x.data ≠ [])
    (hy : y.data ≠ []) (hne : firstCh x ≠ firstCh y) : x ++ b ≠ y ++ c := by
  intro h
  have h2 := congrArg firstCh h
  rw [firstCh_append x b hx, firstCh_append y c hy] at h2
  exact hne h2

theorem timeout_ne_fail_msg (a s : String) :
    "Timeout: " ++ a ≠ "✗ " ++ a ++ ": " ++ s := by
  have hy : (("✗ " ++ a) ++ ": ").data ≠ [] :=
    data_ne_nil_left _ _ (data_ne_nil_left _ _ (by decide))
  apply append_ne_of_firstCh a s (by decide) hy
  rw [firstCh_append _ ": " (data_ne_nil_left _ _ (by decide)),
    firstCh_append "✗ " a (by decide)]
  decide

theorem timeout_ne_error_msg (a s : String) :
    "Timeout: " ++ a ≠ "Error running " ++ a ++ ": " ++ s := by
  have hy : (("Error running " ++ a) ++ ": ").data ≠ [] :=
    data_ne_nil_left _ _ (data_ne_nil_left _ _ (by decide))
  apply append_ne_of_firstCh a s (by decide) hy
  rw [firstCh_append _ ": " (data_ne_nil_left _ _ (by decide)),
    firstCh_append "Error running " a (by decide)]
  decide

theorem execCalls_cons_print (s : String) (tr : List Event) :
    execCalls (Event.print s :: tr) = execCalls tr := by
  simp [execCalls, List.filterMap_cons]

/-- Along any run, the spawned calls are exactly the five fixed commands,
each with the 30-second timeout, in order. -/
theorem execCalls_force (fs : List String) (u : String → Option String)
    (rc : List String → CmdOutcome) :
    execCalls (force_git_resolution fs u rc).trace = commands.map (fun c => (c, 30)) := by
  rw [force_trace_eq, execCalls_cons_print, execCalls_append, execCalls_append,
    execCalls_append, unlinkLoop_no_exec, removeLoop_no_exec, cmdLoop_execCalls]
  rfl

theorem cmdLoop_no_unlink (rc : List String → CmdOutcome) (cmds : List (List String)) :
    ∀ q, Event.unlink q ∉ cmdLoop rc cmds := by
  induction cmds with
  | nil => intro q h; simp [cmdLoop] at h
  | cons c rest ih =>
    intro q h
    rw [cmdLoop] at h
    rcases List.mem_append.mp h with h | h
    · unfold cmdStep at h
      cases hc : rc c with
      | completed r out err =>
        by_cases hr : r = 0 <;> by_cases hl : c.getLast? = some "status" <;>
          rw [hc] at h <;> simp [hr, hl] at h
      | timeout => rw [hc] at h; simp at h
      | exc e => rw [hc] at h; simp at h
    · exact ih q h

theorem rglobLocks_subset (fs : List String) (p : String) (h : p ∈ rglobLocks fs) :
    p ∈ fs := by
  unfold rglobLocks at h
  exact (List.mem_filter.mp h).1

theorem mem_rglobLocks (fs : List String) (p : String) (h : p ∈ fs)
    (hq : isGitLock p = true) : p ∈ rglobLocks fs := by
  unfold rglobLocks
  exact List.mem_filter.mpr ⟨h, hq⟩

theorem isGitLock_of_mem_rglobLocks (fs : List String) (p : String)
    (h : p ∈ rglobLocks fs) : isGitLock p = true := by
  unfold rglobLocks at h
  exact (List.mem_filter.mp h).2

/-! ### The claims -/

/-- Claim C1: every file matching `*.lock` under `.git` at the start of
`force_git_resolution` is absent after the routine runs, except files whose
individual deletion raised an OS-level error, which are logged and left in
place. -/
theorem C1_lock_sweep (fs : List String) (u : String → Option String)
    (rc : List String → CmdOutcome) (p : String) (hp : p ∈ rglobLocks fs) :
    (u p = none → p ∉ (force_git_resolution fs u rc).fs) ∧
    (∀ e, u p = some e →
      p ∈ (force_git_resolution fs u rc).fs ∧
      Event.print ("Could not remove " ++ p ++ ": " ++ e) ∈
        (force_git_resolution fs u rc).trace) := by
  constructor
  · intro hnone hcon
    rw [force_fs_eq] at hcon
    unfold cleanupFs at hcon
    exact unlinkLoop_removes u (rglobLocks fs) fs p hp hnone
      (removeLoop_fs_subset u specific_locks _ _ hcon)
  · intro e he
    have hfs0 : p ∈ fs := rglobLocks_subset fs p hp
    refine ⟨?_, ?_⟩
    · rw [force_fs_eq]
      unfold cleanupFs
      exact removeLoop_keeps_failed u specific_locks _ p e he
        (unlinkLoop_keeps_failed u (rglobLocks fs) fs p e he hfs0)
    · rw [force_trace_eq]
      apply List.mem_cons_of_mem
      apply List.mem_append_left
      apply List.mem_append_left
      apply List.mem_append_left
      exact unlinkLoop_logs_failure u (rglobLocks fs) fs p e hp he

theorem C1_lock_sweep_witness :
    ".git/index.lock" ∈ rglobLocks [".git/index.lock"] ∧
    ".git/index.lock" ∉ (force_git_resolution [".git/index.lock"] (fun _ => none)
      (fun _ => CmdOutcome.timeout)).fs :=
  ⟨by decide,
   (C1_lock_sweep [".git/index.lock"] (fun _ => none) (fun _ => CmdOutcome.timeout)
     ".git/index.lock" (by decide)).1 rfl⟩

/-- Claim C2: the routine spawns exactly the five external commands
`git reset --hard HEAD`, `git clean -fd`, `git fetch --all`,
`git reset --hard origin/main`, `git status`, in that fixed order, whatever
the outcome of any of them (and of the lock cleanup). -/
theorem C2_command_sequence (fs : List String) (u : String → Option String)
    (rc : List String → CmdOutcome) :
    execCmds (force_git_resolution fs u rc).trace =
      [["git", "reset", "--hard", "HEAD"],
       ["git", "clean", "-fd"],
       ["git", "fetch", "--all"],
       ["git", "reset", "--hard", "origin/main"],
       ["git", "status"]] := by
  rw [execCmds_eq_map, execCalls_force]
  rfl

/-- Claim C3: whatever the initial filesystem and the outcomes of deletions
and commands, the script runs to completion without a propagated exception and
the process exit status is 0. -/
theorem C3_exit_zero (fs : List String) (u : String → Option String)
    (rc : List String → CmdOutcome) :
    ∃ r : RunResult, scriptMain fs u rc = Except.ok (0, r) :=
  ⟨force_git_resolution fs u rc, rfl⟩

/-- Claim C4, counterexample: `.git/index.lock` exists before the run, its
deletion raises an OS-level error, and it still exists afterward — so a
well-known lock path present before the routine is not always absent after
it. -/
theorem C4_counterexample :
    ".git/index.lock" ∈ [".git/index.lock"] ∧
    ".git/index.lock" ∈ (force_git_resolution [".git/index.lock"]
      (fun _ => some "Permission denied") (fun _ => CmdOutcome.timeout)).fs := by
  decide

/-- Claim C4 as amended: each of the four well-known lock paths is absent
after the routine completes provided its deletion does not raise an OS-level
error (whether or not it existed beforehand). -/
theorem C4_specific_locks (fs : List String) (u : String → Option String)
    (rc : List String → CmdOutcome) (p : String) (hp : p ∈ specific_locks)
    (hu : u p = none) :
    p ∉ (force_git_resolution fs u rc).fs := by
  rw [force_fs_eq]
  unfold cleanupFs
  exact removeLoop_removes u specific_locks _ p hp hu

theorem C4_specific_locks_witness :
    ".git/index.lock" ∈ specific_locks ∧
    ".git/index.lock" ∉ (force_git_resolution [".git/index.lock"] (fun _ => none)
      (fun _ => CmdOutcome.timeout)).fs :=
  ⟨by decide,
   C4_specific_locks [".git/index.lock"] (fun _ => none) (fun _ => CmdOutcome.timeout)
     ".git/index.lock" (by decide) rfl⟩

/-- Claim C5: when a command times out, the timeout-specific line
`Timeout: …` is printed for it; that line differs from the nonzero-exit line
`✗ …: stderr` and from the generic-exception line `Error running …: msg` for
every possible stderr/exception text; and the run still spawns all five
commands. -/
theorem C5_timeout_handling (fs : List String) (u : String → Option String)
    (rc : List String → CmdOutcome) (cmd : List String) (hc : cmd ∈ commands)
    (ht : rc cmd = CmdOutcome.timeout) :
    Event.print ("Timeout: " ++ joinCmd cmd) ∈ (force_git_resolution fs u rc).trace ∧
    (∀ s, "Timeout: " ++ joinCmd cmd ≠ "✗ " ++ joinCmd cmd ++ ": " ++ s) ∧
    (∀ s, "Timeout: " ++ joinCmd cmd ≠ "Error running " ++ joinCmd cmd ++ ": " ++ s) ∧
    execCmds (force_git_resolution fs u rc).trace = commands := by
  refine ⟨?_, fun s => timeout_ne_fail_msg (joinCmd cmd) s,
    fun s => timeout_ne_error_msg (joinCmd cmd) s, ?_⟩
  · rw [force_trace_eq]
    apply List.mem_cons_of_mem
    apply List.mem_append_left
    apply List.mem_append_right
    exact mem_cmdLoop rc commands cmd hc _ (cmdStep_timeout rc cmd ht)
  · rw [execCmds_eq_map, execCalls_force]
    rfl

theorem C5_timeout_handling_witness :
    Event.print "Timeout: git status" ∈ (force_git_resolution [] (fun _ => none)
      (fun _ => CmdOutcome.timeout)).trace :=
  (C5_timeout_handling [] (fun _ => none) (fun _ => CmdOutcome.timeout)
    ["git", "status"] (by decide) rfl).1

/-- Claim C6, counterexample: `git status` is executed but completes with exit
code 1 and stdout `STDOUT-TEXT`; the stdout is not printed, so the captured
standard output is not printed on every execution of the status command. -/
theorem C6_counterexample :
    ["git", "status"] ∈ execCmds (force_git_resolution [] (fun _ => none)
      (fun c => if c = ["git", "status"]
        then CmdOutcome.completed 1 "STDOUT-TEXT" "fatal: not a git repository"
        else CmdOutcome.completed 0 "" "")).trace ∧
    Event.print "STDOUT-TEXT" ∉ (force_git_resolution [] (fun _ => none)
      (fun c => if c = ["git", "status"]
        then CmdOutcome.completed 1 "STDOUT-TEXT" "fatal: not a git repository"
        else CmdOutcome.completed 0 "" "")).trace := by
  decide

/-- Claim C6 as amended: whenever the `git status` command is executed and
completes with exit code 0, its captured standard output is printed in
addition to the per-command success report derived from the captured exit
code. -/
theorem C6_status_stdout (fs : List String) (u : String → Option String)
    (rc : List String → CmdOutcome) (out err : String)
    (h : rc ["git", "status"] = CmdOutcome.completed 0 out err) :
    Event.print ("✓ " ++ joinCmd ["git", "status"]) ∈
      (force_git_resolution fs u rc).trace ∧
    Event.print out ∈ (force_git_resolution fs u rc).trace := by
  have hstep := cmdStep_status_ok rc ["git", "status"] out err h (by decide)
  constructor
  · rw [force_trace_eq]
    apply List.mem_cons_of_mem
    apply List.mem_append_left
    apply List.mem_append_right
    exact mem_cmdLoop rc commands _ (by decide) _ hstep.1
  · rw [force_trace_eq]
    apply List.mem_cons_of_mem
    apply List.mem_append_left
    apply List.mem_append_right
    exact mem_cmdLoop rc commands _ (by decide) _ hstep.2

theorem C6_status_stdout_witness :
    Event.print "CLEAN-TREE" ∈ (force_git_resolution [] (fun _ => none)
      (fun _ => CmdOutcome.completed 0 "CLEAN-TREE" "")).trace :=
  (C6_status_stdout [] (fun _ => none) (fun _ => CmdOutcome.completed 0 "CLEAN-TREE" "")
    "CLEAN-TREE" "" rfl).2

/-- Claim C7: when the lock files found under `.git` are exactly
`.git/index.lock` and `.git/refs/heads/main.lock` and their deletion
succeeds, the run deletes both, and its trace has a prefix containing no
command invocation in which exactly two `Removed` lines are printed and both
deletions are attempted, with all five external commands spawned only after
that prefix. -/
theorem C7_scenario (fs : List String) (u : String → Option String)
    (rc : List String → CmdOutcome)
    (hg : rglobLocks fs = [".git/index.lock", ".git/refs/heads/main.lock"])
    (h1 : u ".git/index.lock" = none) (h2 : u ".git/refs/heads/main.lock" = none) :
    ".git/index.lock" ∉ (force_git_resolution fs u rc).fs ∧
    ".git/refs/heads/main.lock" ∉ (force_git_resolution fs u rc).fs ∧
    ∃ pre post, (force_git_resolution fs u rc).trace = pre ++ post ∧
      pre.countP isRemovedPrint = 2 ∧
      Event.unlink ".git/index.lock" ∈ pre ∧
      Event.unlink ".git/refs/heads/main.lock" ∈ pre ∧
      pre.countP isExec = 0 ∧
      post.countP isExec = 5 := by
  have hev1 : unlinkLoop u fs (rglobLocks fs) =
      (fsDelete (fsDelete fs ".git/index.lock") ".git/refs/heads/main.lock",
       [Event.unlink ".git/index.lock",
        Event.print ("Removed lock file: " ++ ".git/index.lock"),
        Event.unlink ".git/refs/heads/main.lock",
        Event.print ("Removed lock file: " ++ ".git/refs/heads/main.lock")]) := by
    rw [hg]
    simp only [unlinkLoop, h1, h2]
  have hfs1 : (unlinkLoop u fs (rglobLocks fs)).1 =
      fsDelete (fsDelete fs ".git/index.lock") ".git/refs/heads/main.lock" := by
    rw [hev1]
  have hev1tr : (unlinkLoop u fs (rglobLocks fs)).2 =
      [Event.unlink ".git/index.lock",
       Event.print ("Removed lock file: " ++ ".git/index.lock"),
       Event.unlink ".git/refs/heads/main.lock",
       Event.print ("Removed lock file: " ++ ".git/refs/heads/main.lock")] := by
    rw [hev1]
  have hall : ∀ q, q ∈ specific_locks → isGitLock q = true := by decide
  have habs : ∀ p, p ∈ specific_locks → p ∉ (unlinkLoop u fs (rglobLocks fs)).1 := by
    intro p hp hmem
    rw [hfs1, mem_fsDelete, mem_fsDelete] at hmem
    obtain ⟨⟨hpfs, hne1⟩, hne2⟩ := hmem
    have hmg := mem_rglobLocks fs p hpfs (hall p hp)
    rw [hg] at hmg
    simp only [List.mem_cons, List.not_mem_nil, or_false] at hmg
    rcases hmg with h | h
    · exact hne1 h
    · exact hne2 h
  have hrm := removeLoop_absent u specific_locks (unlinkLoop u fs (rglobLocks fs)).1 habs
  refine ⟨?_, ?_, ?_⟩
  · rw [force_fs_eq]
    unfold cleanupFs
    rw [hrm, hfs1]
    simp [mem_fsDelete]
  · rw [force_fs_eq]
    unfold cleanupFs
    rw [hrm, hfs1]
    simp [mem_fsDelete]
  · refine ⟨Event.print "Force-resolving Git lock and conflicts..." ::
        (unlinkLoop u fs (rglobLocks fs)).2,
      cmdLoop rc commands ++
        [Event.print "\nGit resolution attempt complete.",
         Event.print "Try running: git status"], ?_, ?_, ?_, ?_, ?_, ?_⟩
    · rw [force_trace_eq, hrm]
      simp [List.append_assoc]
    · rw [hev1tr]
      decide
    · rw [hev1tr]
      decide
    · rw [hev1tr]
      decide
    · rw [hev1tr]
      decide
    · rw [countP_isExec_eq, execCalls_append, cmdLoop_execCalls]
      rfl

theorem C7_scenario_witness :
    ".git/index.lock" ∉ (force_git_resolution
      [".git/index.lock", ".git/refs/heads/main.lock"] (fun _ => none)
      (fun _ => CmdOutcome.timeout)).fs ∧
    ".git/refs/heads/main.lock" ∉ (force_git_resolution
      [".git/index.lock", ".git/refs/heads/main.lock"] (fun _ => none)
      (fun _ => CmdOutcome.timeout)).fs := by
  have h := C7_scenario [".git/index.lock", ".git/refs/heads/main.lock"]
    (fun _ => none) (fun _ => CmdOutcome.timeout) (by decide) rfl rfl
  exact ⟨h.1, h.2.1⟩

/-- Claim C8: every one of the five external commands is spawned with the
bounded wait of exactly 30 time units passed to `subprocess.run`. -/
theorem C8_bounded_timeout (fs : List String) (u : String → Option String)
    (rc : List String → CmdOutcome) :
    execCalls (force_git_resolution fs u rc).trace =
      [(["git", "reset", "--hard", "HEAD"], 30),
       (["git", "clean", "-fd"], 30),
       (["git", "fetch", "--all"], 30),
       (["git", "reset", "--hard", "origin/main"], 30),
       (["git", "status"], 30)] := by
  rw [execCalls_force]
  rfl

/-- Claim C9: during lock cleanup, a failed deletion is logged with a message
naming the file, and no failure stops the cleanup: in the recursive sweep
every listed lock file still has its deletion attempted, and in the pass over
the four specific paths a file that is present and whose deletion fails is
still reached and its failure logged. -/
theorem C9_cleanup_resilience (fs : List String) (u : String → Option String)
    (rc : List String → CmdOutcome) :
    (∀ p, p ∈ rglobLocks fs → Event.unlink p ∈ (force_git_resolution fs u rc).trace) ∧
    (∀ p e, p ∈ rglobLocks fs → u p = some e →
      Event.print ("Could not remove " ++ p ++ ": " ++ e) ∈
        (force_git_resolution fs u rc).trace) ∧
    (∀ p e, p ∈ specific_locks → p ∈ fs → u p = some e →
      Event.print ("Could not remove " ++ p ++ ": " ++ e) ∈
        (force_git_resolution fs u rc).trace) := by
  refine ⟨?_, ?_, ?_⟩
  · intro p hp
    rw [force_trace_eq]
    apply List.mem_cons_of_mem
    apply List.mem_append_left
    apply List.mem_append_left
    apply List.mem_append_left
    exact unlinkLoop_attempts u (rglobLocks fs) fs p hp
  · intro p e hp he
    rw [force_trace_eq]
    apply List.mem_cons_of_mem
    apply List.mem_append_left
    apply List.mem_append_left
    apply List.mem_append_left
    exact unlinkLoop_logs_failure u (rglobLocks fs) fs p e hp he
  · intro p e hp hpfs he
    rw [force_trace_eq]
    apply List.mem_cons_of_mem
    apply List.mem_append_left
    apply List.mem_append_left
    apply List.mem_append_right
    exact removeLoop_logs_failure u specific_locks _ p e hp
      (unlinkLoop_keeps_failed u (rglobLocks fs) fs p e he hpfs) he

theorem C9_cleanup_resilience_witness :
    Event.unlink ".git/index.lock" ∈ (force_git_resolution [".git/index.lock"]
      (fun _ => some "Device or resource busy") (fun _ => CmdOutcome.timeout)).trace ∧
    Event.print "Could not remove .git/index.lock: Device or resource busy" ∈
      (force_git_resolution [".git/index.lock"]
        (fun _ => some "Device or resource busy") (fun _ => CmdOutcome.timeout)).trace := by
  have h := C9_cleanup_resilience [".git/index.lock"]
    (fun _ => some "Device or resource busy") (fun _ => CmdOutcome.timeout)
  exact ⟨h.1 ".git/index.lock" (by decide),
    h.2.1 ".git/index.lock" "Device or resource busy" (by decide) rfl⟩

/-- Claim C10: the cleanup phase only ever attempts to unlink paths produced
by the recursive `*.lock` search under `.git` or one of the four hardcoded
`.git/…` paths, and any file that is not a `.lock` file under `.git` survives
the cleanup phase untouched. -/
theorem C10_cleanup_frame (fs : List String) (u : String → Option String)
    (rc : List String → CmdOutcome) (p : String) (hp : p ∈ fs)
    (hnot : isGitLock p = false) :
    p ∈ cleanupFs u fs ∧
    (∀ q, Event.unlink q ∈ (force_git_resolution fs u rc).trace →
      q ∈ rglobLocks fs ∨ q ∈ specific_locks) := by
  constructor
  · unfold cleanupFs
    have hall : ∀ q, q ∈ specific_locks → isGitLock q = true := by decide
    have hn1 : p ∉ rglobLocks fs := by
      intro hc
      rw [isGitLock_of_mem_rglobLocks fs p hc] at hnot
      cases hnot
    have hn2 : p ∉ specific_locks := by
      intro hc
      rw [hall p hc] at hnot
      cases hnot
    exact removeLoop_keeps_other u specific_locks _ p hn2
      (unlinkLoop_keeps_other u (rglobLocks fs) fs p hn1 hp)
  · intro q hq
    rw [force_trace_eq] at hq
    rcases List.mem_cons.mp hq with h | h
    · cases h
    · rcases List.mem_append.mp h with h | h
      · rcases List.mem_append.mp h with h | h
        · rcases List.mem_append.mp h with h | h
          · exact Or.inl (unlinkLoop_unlink_mem u (rglobLocks fs) fs q h)
          · exact Or.inr (removeLoop_unlink_mem u specific_locks _ q h)
        · exact absurd h (cmdLoop_no_unlink rc commands q)
      · simp at h

theorem C10_cleanup_frame_witness :
    "src/app.py" ∈ cleanupFs (fun _ => none) ["src/app.py"] :=
  (C10_cleanup_frame ["src/app.py"] (fun _ => none) (fun _ => CmdOutcome.timeout)
    "src/app.py" (by decide) (by decide)).1
